import Mathlib

/-!
Verification of the link-resolution and constrained-rendition-selection
pipeline of nonebot-plugin-bili2mp4 (src/nonebot_plugin_bili2mp4/main.py).

The Python source is shallowly embedded: pure functions become Lean
functions over String / Nat / List; external collaborators (the network
redirect resolver behind _expand_short_url, the regex URL finder backed by
the re library, the json.loads parser, the yt-dlp download engine and the
ffprobe media-inspection tool) are modelled as explicit oracle parameters
or oracle fields, exactly at the interface boundary the source calls them.
Machine floats appear in the source only in the two size comparisons
(bytes / (1024*1024) > limit_mb); they are embedded as the exact rational
equivalent bytes > limit_mb * 1048576.
-/

/-! ### Identifier codec: _bili_av_to_bv (main.py lines 338-352)

table, s, xor, add are the literal constants of the source.  The Python
body assigns r[s[i]] = table[x // 58**i % 58] for i in range(6) over the
12-character template list("BV1  4 1 7  "); any internal exception (only
an out-of-range index could raise) yields None.  The range(6) loop is
unrolled; a failed table lookup propagates to none exactly as the except
branch does. -/

def bvTable : List Char := "fZodR9XQDSUm21yCkr6zBqiveYah8bt4xsWpHnJE7jL5VG3guMTKNPAwcF".toList

def bvXorConst : Nat := 177451812

def bvAddConst : Nat := 8728348608

def bvDigit (x i : Nat) : Option Char := bvTable.get? (x / 58 ^ i % 58)

def bvTemplate : List Char := "BV1  4 1 7  ".toList

def _bili_av_to_bv (aid : Nat) : Option String :=
  let x := (Nat.xor aid bvXorConst) + bvAddConst
  (bvDigit x 0).bind fun c0 =>
  (bvDigit x 1).bind fun c1 =>
  (bvDigit x 2).bind fun c2 =>
  (bvDigit x 3).bind fun c3 =>
  (bvDigit x 4).bind fun c4 =>
  (bvDigit x 5).bind fun c5 =>
  some (String.mk ((((((bvTemplate.set 11 c0).set 10 c1).set 3 c2).set 8 c3).set 4 c4).set 6 c5))

/-! ### Python string helpers

pyStrip models str.strip() (ASCII/common whitespace; the source only ever
strips URLs and cookie fragments).  digitsToNat models int() applied to a
regex group known to consist of decimal digits. -/

def pyStrip (s : String) : String :=
  String.mk (((s.toList.dropWhile Char.isWhitespace).reverse.dropWhile Char.isWhitespace).reverse)

def digitsToNat (cs : List Char) : Nat :=
  cs.foldl (fun n c => n * 10 + (c.toNat - 48)) 0

/-- Whether a character is matched by the regex class \w (ASCII model). -/
def isWordChar (c : Char) : Bool := c.isAlphanum || c = '_'

/-- str.lower(). -/
def strLower (s : String) : String := String.mk (s.toList.map Char.toLower)

/-- str.startswith(a) of b, i.e. whether a is a prefix of b. -/
def strPrefix (a b : String) : Bool := a.toList.isPrefixOf b.toList

/-- str.split(sep) for a one-character separator. -/
def splitChar (sep : Char) : List Char → List (List Char)
  | [] => [[]]
  | c :: rest =>
      let r := splitChar sep rest
      if c = sep then [] :: r
      else
        match r with
        | h :: t => (c :: h) :: t
        | [] => [[c]]

/-- str.split(sep, 1) for a one-character separator: the parts around the
first occurrence, or none when the separator does not occur. -/
def splitOnceChar (sep : Char) : List Char → Option (List Char × List Char)
  | [] => none
  | c :: rest =>
      if c = sep then some ([], rest)
      else (splitOnceChar sep rest).map (fun pr => (c :: pr.1, pr.2))

/-- Python int() on a string: strip, optional sign, at least one decimal
digit (the underscore-grouping extension is not modelled; the source only
parses ffprobe dimension output here). -/
def pyInt (s : String) : Option Int :=
  match (pyStrip s).toList with
  | '-' :: ds =>
      if !ds.isEmpty && ds.all Char.isDigit then some (-(digitsToNat ds : Int)) else none
  | '+' :: ds =>
      if !ds.isEmpty && ds.all Char.isDigit then some ((digitsToNat ds : Int)) else none
  | ds =>
      if !ds.isEmpty && ds.all Char.isDigit then some ((digitsToNat ds : Int)) else none

/-! ### re.fullmatch(r"(?i)av(\d+)", u)  (main.py line 359)

The bare legacy form: letters a/A then v/V then one or more decimal
digits, covering the whole string; the result is the numeric value of the
digit group. -/

def parseBareAv (s : String) : Option Nat :=
  match s.toList with
  | a :: v :: rest =>
      if (a = 'a' || a = 'A') && (v = 'v' || v = 'V') && (!rest.isEmpty) && rest.all Char.isDigit
      then some (digitsToNat rest)
      else none
  | _ => none

/-! ### urllib.parse model

pyUrlparse captures the parts of urlparse the source reads: scheme,
netloc, path, query.  unquote_plus does byte-wise percent-decoding plus
the plus-to-space rule (Python additionally reassembles UTF-8 byte
sequences; the source only ever decodes ASCII URLs and numeric ids, where
the two agree).  parse_qsl follows Python parse_qs defaults: split on
ampersand, skip parts without an equals sign, skip blank values. -/

structure UrlParts where
  scheme : String
  netloc : String
  path : String
  query : String
deriving DecidableEq

def isSchemeChar (c : Char) : Bool := c.isAlphanum || c = '+' || c = '-' || c = '.'

def splitScheme (s : String) : String × String :=
  let cs := s.toList
  match cs.findIdx? (· = ':') with
  | some i =>
      let pre := cs.take i
      if 0 < i && (match cs.head? with | some c => c.isAlpha | none => false) && pre.all isSchemeChar
      then (String.mk (pre.map Char.toLower), String.mk (cs.drop (i + 1)))
      else ("", s)
  | none => ("", s)

def takeBefore (stop : Char → Bool) (cs : List Char) : List Char × List Char :=
  match cs.findIdx? stop with
  | some k => (cs.take k, cs.drop k)
  | none => (cs, [])

def pyUrlparse (url : String) : UrlParts :=
  let (scheme, rest) := splitScheme url
  let (netloc, cs) :=
    match rest.toList with
    | '/' :: '/' :: tail => takeBefore (fun c => c = '/' || c = '?' || c = '#') tail
    | other => ([], other)
  let (beforeFrag, _) := takeBefore (· = '#') cs
  let (path, afterPath) := takeBefore (· = '?') beforeFrag
  let query := match afterPath with
    | [] => []
    | _ :: qs => qs
  ⟨scheme, String.mk netloc, String.mk path, String.mk query⟩

def urlHostname (netloc : String) : String :=
  let afterAt := match (splitChar '@' netloc.toList).getLast? with
    | some t => t
    | none => netloc.toList
  let host := match splitChar ':' afterAt with
    | h :: _ => h
    | [] => afterAt
  strLower (String.mk host)

def hexVal (c : Char) : Option Nat :=
  if '0' ≤ c && c ≤ '9' then some (c.toNat - 48)
  else if 'a' ≤ c && c ≤ 'f' then some (c.toNat - 87)
  else if 'A' ≤ c && c ≤ 'F' then some (c.toNat - 55)
  else none

def pctDecode : List Char → List Char
  | [] => []
  | '%' :: a :: b :: rest =>
      match hexVal a, hexVal b with
      | some x, some y => Char.ofNat (16 * x + y) :: pctDecode rest
      | _, _ => '%' :: pctDecode (a :: b :: rest)
  | c :: rest => c :: pctDecode rest

def unquote_plus (s : String) : String :=
  String.mk (pctDecode (s.toList.map (fun c => if c = '+' then ' ' else c)))

def parse_qsl (query : String) : List (String × String) :=
  (splitChar '&' query.toList).foldr
    (fun part acc =>
      match splitOnceChar '=' part with
      | none => acc
      | some (k, v) =>
          if v.isEmpty then acc
          else (unquote_plus (String.mk k), unquote_plus (String.mk v)) :: acc)
    []

def qsGet (q : List (String × String)) (key : String) : List String :=
  (q.filter (fun kv => kv.1 = key)).map (fun kv => kv.2)

/-! ### _extract_aid_from_url (main.py lines 315-335)

re.search(r"/video/av(\d+)", path, IGNORECASE) is the leftmost occurrence
of the literal, case-insensitively, followed by a maximal nonempty digit
run; re.search(r"(\d+)", v) is the first maximal digit run of v. -/

def matchPrefixCI (pat : List Char) (cs : List Char) : Bool :=
  match pat, cs with
  | [], _ => true
  | _ :: _, [] => false
  | p :: ps, c :: rest => p.toLower = c.toLower && matchPrefixCI ps rest

def scanVideoAv : List Char → Option (List Char)
  | [] => none
  | c :: rest =>
      if matchPrefixCI "/video/av".toList (c :: rest) then
        let ds := ((c :: rest).drop 9).takeWhile Char.isDigit
        if ds.isEmpty then scanVideoAv rest else some ds
      else scanVideoAv rest

def firstDigitRun : List Char → Option (List Char)
  | [] => none
  | c :: rest =>
      if c.isDigit then some (c :: rest.takeWhile Char.isDigit)
      else firstDigitRun rest

def aidFromQueryKey (q : List (String × String)) (key : String) : Option Nat :=
  match qsGet q key with
  | v :: _ =>
      match firstDigitRun v.toList with
      | some ds => some (digitsToNat ds)
      | none => none
  | [] => none

def _extract_aid_from_url (url : String) : Option Nat :=
  let p := pyUrlparse url
  match scanVideoAv p.path.toList with
  | some ds => some (digitsToNat ds)
  | none =>
      let q := parse_qsl p.query
      match aidFromQueryKey q "aid" with
      | some n => some n
      | none => aidFromQueryKey q "avid"

/-! ### _expand_short_url (main.py lines 404-425)

The HEAD/GET redirect resolution is the network oracle
redirect : String to Option String; none models any request failure
(return u), some final models resp.geturl(), with the final or u
truthiness fallback for an empty result. -/

def shortHosts : List String := ["b23.tv", "www.b23.tv"]

def _expand_short_url (redirect : String → Option String) (u : String) : String :=
  let host := urlHostname (pyUrlparse u).netloc
  if strLower host ∈ shortHosts then
    match redirect u with
    | some final => if final.isEmpty then u else final
    | none => u
  else u

/-! ### _normalize_bili_url (main.py lines 355-382) -/

def biliVideoBase : String := "https://www.bilibili.com/video/"

/-- The recurring `bv = _bili_av_to_bv(aid); if bv: return canonical url`
pattern (lines 361-365 and 377-379 with their fallthroughs): the encoded
canonical URL on success, the given fallback on encode failure. -/
def encodeOrRes (res : Option String) (fallback : String) : String :=
  match res with
  | some bv => biliVideoBase ++ bv
  | none => fallback

def encodeOr (aid : Nat) (fallback : String) : String :=
  encodeOrRes (_bili_av_to_bv aid) fallback

/-- Steps 2-5 of _normalize_bili_url, taken when the stripped input u is
not the bare legacy form: pass through non-URLs, expand the short link,
convert a discovered legacy numeric id, else return the expanded URL. -/
def normalizeNonBare (redirect : String → Option String) (raw u : String) : String :=
  if !(strPrefix "http://" (strLower u) || strPrefix "https://" (strLower u)) then raw
  else
    let u2 := _expand_short_url redirect u
    match _extract_aid_from_url u2 with
    | some aid => encodeOr aid u2
    | none => u2

def _normalize_bili_url (redirect : String → Option String) (raw : String) : String :=
  match parseBareAv (pyStrip raw) with
  | some aid => encodeOr aid raw
  | none => normalizeNonBare redirect raw (pyStrip raw)

/-! ### Link extractor: _extract_bili_urls_from_event (main.py lines 244-312)

The message is an ordered list of typed segments.  _find_urls_in_text
(regex BILI_URL_RE plus query-parameter rescanning, all backed by the re
and urllib libraries) is the oracle findUrls; json.loads is the oracle
jparse, returning none on a decode error — that parse failure is absorbed
by the inner try/except of the json branch (lines 262-269), the raw-text
matches of the segment having already been collected.  PyVal is the
decoded JSON value tree; _walk_strings (lines 228-241) collects every
string leaf. -/

inductive PyVal where
  | str (s : String)
  | atom
  | arr (items : List PyVal)
  | obj (fields : List (String × PyVal))

mutual

def _walk_strings : PyVal → List String
  | .str s => [s]
  | .atom => []
  | .arr items => walkArr items
  | .obj fields => walkObj fields

def walkArr : List PyVal → List String
  | [] => []
  | v :: vs => _walk_strings v ++ walkArr vs

def walkObj : List (String × PyVal) → List String
  | [] => []
  | (_, v) :: vs => _walk_strings v ++ walkObj vs

end

inductive Seg where
  | text (txt : Option String)
  | jsonCard (data content : Option String)
  | xmlCard (data content : Option String)
  | share (url : Option String)
  | other (s : String)
deriving DecidableEq

/-- Python `a or b` on a string option: some nonempty s wins, else b. -/
def pyOrStr (a : Option String) (b : String) : String :=
  match a with
  | some s => if s.isEmpty then b else s
  | none => b

/-- The `seg.data.get("data") or seg.data.get("content") or ""` chain. -/
def segRaw (d c : Option String) : String := pyOrStr d (pyOrStr c "")

/-- The `if m not in urls: urls.append(m)` idiom used throughout the source. -/
def addUnique (acc : List String) (u : String) : List String :=
  if u ∈ acc then acc else acc ++ [u]

def addFound (acc : List String) (us : List String) : List String := us.foldl addUnique acc

/-- One iteration of the per-segment loop of _extract_bili_urls_from_event. -/
def segStep (findUrls : String → List String) (jparse : String → Option PyVal)
    (acc : List String) : Seg → List String
  | .text t => addFound acc (findUrls (t.getD ""))
  | .jsonCard d c =>
      let raw := segRaw d c
      let acc1 := addFound acc (findUrls raw)
      match jparse raw with
      | some obj => (_walk_strings obj).foldl (fun a s => addFound a (findUrls s)) acc1
      | none => acc1
  | .xmlCard d c => addFound acc (findUrls (segRaw d c))
  | .share url => addFound acc (findUrls (pyOrStr url ""))
  | .other s => addFound acc (findUrls s)

/-- The strings findUrls is applied to while processing one segment,
concatenated: the candidate pool a single segment can contribute. -/
def segSources (findUrls : String → List String) (jparse : String → Option PyVal) :
    Seg → List String
  | .text t => findUrls (t.getD "")
  | .jsonCard d c =>
      let raw := segRaw d c
      findUrls raw ++
        (match jparse raw with
         | some obj => (_walk_strings obj).foldr (fun s acc => findUrls s ++ acc) []
         | none => [])
  | .xmlCard d c => findUrls (segRaw d c)
  | .share url => findUrls (pyOrStr url "")
  | .other s => findUrls s

/-- event.get_plaintext(): concatenation of the text segments. -/
def getPlaintext (segs : List Seg) : String :=
  segs.foldl (fun a s => match s with | .text t => a ++ t.getD "" | _ => a) ""

/-! re.findall(r"(?i)\bav(\d+)\b", full_text): fuel-based left-to-right
scan; prevWord tracks whether the previous character was a word character
(for the word boundaries), matches are non-overlapping and the scan
resumes after each match. -/

def avTokenScanF : Nat → Bool → List Char → List String
  | 0, _, _ => []
  | _ + 1, _, [] => []
  | fuel + 1, prevWord, c :: rest =>
      if (c = 'a' || c = 'A') && !prevWord then
        match rest with
        | v :: rest2 =>
            if v = 'v' || v = 'V' then
              let ds := rest2.takeWhile Char.isDigit
              let rest3 := rest2.drop ds.length
              if !ds.isEmpty && (match rest3 with | [] => true | n :: _ => !isWordChar n) then
                String.mk ds :: avTokenScanF fuel true rest3
              else avTokenScanF fuel (isWordChar c) rest
            else avTokenScanF fuel (isWordChar c) rest
        | [] => []
      else avTokenScanF fuel (isWordChar c) rest

def avTokens (s : String) : List String := avTokenScanF (s.length + 1) false s.toList

/-! re.findall(r"https?://[^\s\"'<>]*/video/av(\d+)", full_text, IGNORECASE):
after a scheme, the greedy character class backtracks to the last
occurrence of /video/av followed by at least one digit inside the maximal
run of allowed characters; the digit group is maximal. -/

def allowedUrlChar (c : Char) : Bool :=
  !(c.isWhitespace || c = '"' || c = '\'' || c = '<' || c = '>')

/-- Last occurrence of case-insensitive /video/av followed by a nonempty
digit run; returns (end offset of the match, the digit group). -/
def videoAvOcc : List Char → Option (Nat × List Char)
  | [] => none
  | l@(_ :: rest) =>
      let here : Option (Nat × List Char) :=
        if matchPrefixCI "/video/av".toList l then
          let ds := (l.drop 9).takeWhile Char.isDigit
          if ds.isEmpty then none else some (9 + ds.length, ds)
        else none
      match videoAvOcc rest with
      | some (off, ds) => some (off + 1, ds)
      | none => here

def avUrlScanF : Nat → List Char → List String
  | 0, _ => []
  | _ + 1, [] => []
  | fuel + 1, c :: rest =>
      let scheme : Option Nat :=
        if matchPrefixCI "https://".toList (c :: rest) then some 8
        else if matchPrefixCI "http://".toList (c :: rest) then some 7
        else none
      match scheme with
      | some k =>
          let run := ((c :: rest).drop k).takeWhile allowedUrlChar
          match videoAvOcc run with
          | some (off, ds) => String.mk ds :: avUrlScanF fuel ((c :: rest).drop (k + off))
          | none => avUrlScanF fuel rest
      | none => avUrlScanF fuel rest

def avUrls (s : String) : List String := avUrlScanF (s.length + 1) s.toList

def _extract_bili_urls_from_event (findUrls : String → List String)
    (jparse : String → Option PyVal) (segs : List Seg) : List String :=
  let urls := segs.foldl (segStep findUrls jparse) []
  let ft := getPlaintext segs
  let urls := (avTokens ft).foldl (fun a m => addUnique a ("av" ++ m)) urls
  (avUrls ft).foldl
    (fun a m => addUnique a (("https://www.bilibili.com/video/av" ++ m) ++ "/")) urls

/-! ### Rendition selector: _download_with_ytdlp (main.py lines 636-766)

A Fmt is one rendition descriptor from the no-download metadata query
(info["formats"]), with only the fields the selection loop reads:
format_id, vcodec, height, tbr, filesize_approx, filesize.  The outcome
field is the download-engine oracle for this descriptor: what
ydl.extract_info(download=True) followed by _locate_final_file yields for
exactly this format_id — err m for a caught DownloadError/Exception with
message m, noFile when no downloaded file is located (lines 727-731), and
ok path size for a materialized file, size being Path.stat().st_size and
none modelling the unreadable-size except branch (lines 747-749).
Bitrates (tbr) are embedded as Nat; the sort key only compares them. -/

inductive DLOutcome where
  | err (msg : String)
  | noFile
  | ok (path : String) (size : Option Nat)
deriving DecidableEq

structure Fmt where
  format_id : String
  vcodec : Option String
  height : Option Nat
  tbr : Option Nat
  filesize_approx : Option Nat
  filesize : Option Nat
  outcome : DLOutcome
deriving DecidableEq

/-- Bytes in one MB: the 1024 * 1024 of the source. -/
def MB : Nat := 1048576

/-- Pre-check (height), line 691: `if height_limit and h and h > height_limit`. -/
def heightSkip (hL : Nat) (f : Fmt) : Bool :=
  decide (hL ≠ 0) && decide (f.height.getD 0 ≠ 0) && decide (f.height.getD 0 > hL)

/-- Size estimate, lines 696-706: prefer a truthy filesize_approx, fall
back to a truthy filesize, else no estimate. -/
def sizeEstimate (f : Fmt) : Option Nat :=
  if f.filesize_approx.getD 0 ≠ 0 then f.filesize_approx
  else if f.filesize.getD 0 ≠ 0 then f.filesize
  else none

/-- Pre-check (size), lines 708-714: `size_limit_mb and filesize_bytes is
not None` and estimated MB above the limit (exact-arithmetic form of
filesize_bytes / (1024*1024) > size_limit_mb). -/
def sizeSkip (sL : Nat) (f : Fmt) : Bool :=
  decide (sL ≠ 0) &&
    match sizeEstimate f with
    | some e => decide (e > sL * MB)
    | none => false

def precheckPass (hL sL : Nat) (f : Fmt) : Bool := !heightSkip hL f && !sizeSkip sL f

/-- Whether this descriptor clears every gate of one loop iteration:
both pre-checks, a located downloaded file, and the post-download size
confirmation (lines 734-749; an unreadable actual size passes). -/
def fullSuccessB (hL sL : Nat) (f : Fmt) : Bool :=
  if heightSkip hL f then false
  else if sizeSkip sL f then false
  else match f.outcome with
    | .err _ => false
    | .noFile => false
    | .ok _ sz =>
        if sL ≠ 0 then
          match sz with
          | some n => !decide (n > sL * MB)
          | none => true
        else true

def okPath (f : Fmt) : String :=
  match f.outcome with
  | .ok p _ => p
  | _ => ""

def noFileMsg : String := "下载后未找到文件"

def oversizeMsg : String := "文件超过大小限制"

def genericFailMsg : String := "无法下载该视频（所有候选格式均不满足条件或下载失败）"

/-- The failure detail this descriptor records into last_err, if its loop
iteration fails after the pre-checks (none when it is skipped by a
pre-check or accepted). -/
def attemptFailMsg (hL sL : Nat) (f : Fmt) : Option String :=
  if heightSkip hL f then none
  else if sizeSkip sL f then none
  else match f.outcome with
    | .err m => some m
    | .noFile => some noFileMsg
    | .ok _ sz =>
        if sL ≠ 0 then
          match sz with
          | some n => if n > sL * MB then some oversizeMsg else none
          | none => none
        else none

/-- Sort key of line 679: ((f.get("height") or 0), (f.get("tbr") or 0)). -/
def fmtKey (f : Fmt) : Nat × Nat := (f.height.getD 0, f.tbr.getD 0)

def keyLt (p q : Nat × Nat) : Prop := p.1 < q.1 ∨ (p.1 = q.1 ∧ p.2 < q.2)

def keyLe (p q : Nat × Nat) : Prop := p.1 < q.1 ∨ (p.1 = q.1 ∧ p.2 ≤ q.2)

instance (p q : Nat × Nat) : Decidable (keyLt p q) := by unfold keyLt; infer_instance

instance (p q : Nat × Nat) : Decidable (keyLe p q) := by unfold keyLe; infer_instance

/-- Descending insertion: f goes immediately before the first element
whose key is strictly smaller than its own, hence after every element
with a greater-or-equal key already in the list. -/
def insertDesc (f : Fmt) : List Fmt → List Fmt
  | [] => [f]
  | g :: gs => if keyLt (fmtKey g) (fmtKey f) then f :: g :: gs else g :: insertDesc f gs

/-- Line 679: formats.sort(key=..., reverse=True).  CPython list.sort is
stable and reverse=True keeps equal keys in encounter order; folding the
elements left to right, each inserted behind the equal-keyed elements
already placed, reproduces that order exactly (sortDesc_filter_key below
proves the tie preservation: for every key value, the equal-keyed
subsequence of the output is that of the input). -/
def sortDesc (l : List Fmt) : List Fmt := l.foldl (fun acc f => insertDesc f acc) []

/-- Lines 677-679: drop formats with vcodec "none", sort by (height, tbr)
descending. -/
def selectFormats (fs : List Fmt) : List Fmt :=
  sortDesc (fs.filter (fun f => decide (f.vcodec ≠ some "none")))

structure SelectRes where
  result : Except String (String × String)
  attempts : List Fmt
  files : List String

/-- The candidate loop of lines 685-766.  attempts records the
descriptors for which a download was launched, in order; files is the
list of files this run materialized and left on disk (a download adds its
located file, the oversize branch unlinks it again).  The exhaustion
branch raises str(last_err) when a failure was recorded, else the generic
message (lines 763-766). -/
def selectLoop (hL sL : Nat) (title : String) : List Fmt → Option String → SelectRes
  | [], lastErr => ⟨.error (lastErr.getD genericFailMsg), [], []⟩
  | f :: rest, lastErr =>
    if heightSkip hL f then selectLoop hL sL title rest lastErr
    else if sizeSkip sL f then selectLoop hL sL title rest lastErr
    else
      match f.outcome with
      | .err m =>
          let R := selectLoop hL sL title rest (some m)
          ⟨R.result, f :: R.attempts, R.files⟩
      | .noFile =>
          let R := selectLoop hL sL title rest (some noFileMsg)
          ⟨R.result, f :: R.attempts, R.files⟩
      | .ok p sz =>
          if sL ≠ 0 then
            match sz with
            | some n =>
                if n > sL * MB then
                  let R := selectLoop hL sL title rest (some oversizeMsg)
                  ⟨R.result, f :: R.attempts, R.files⟩
                else ⟨.ok (p, title), [f], [p]⟩
            | none => ⟨.ok (p, title), [f], [p]⟩
          else ⟨.ok (p, title), [f], [p]⟩

/-- _download_with_ytdlp after the successful no-download metadata query:
filter and rank the renditions, then run the selection loop. -/
def _download_with_ytdlp (hL sL : Nat) (title : String) (fs : List Fmt) : SelectRes :=
  selectLoop hL sL title (selectFormats fs) none

/-- Candidates up to and including the first fully successful one (all of
them, when none succeeds): the part of the ranked list the loop visits. -/
def takeThrough (p : Fmt → Bool) : List Fmt → List Fmt
  | [] => []
  | f :: rest => if p f then [f] else f :: takeThrough p rest

def resOk {ε α : Type} : Except ε α → Option α
  | .ok a => some a
  | .error _ => none

/-! ### Post-fetch validator: _check_video_file (main.py lines 476-522)

The ffprobe boundary (spec section 6) consumes a path and produces an
exit status plus unreliable stdout; ProbeResult is that oracle.  The
width,height parse models the tuple unpacking (exactly two comma parts)
and int(height); a ValueError from either is absorbed (pass).  The
returned pair is (accepted, fileDeleted). -/

structure ProbeResult where
  returncode : Int
  stdout : String
deriving DecidableEq

def parseWH (out : String) : Option (String × String) :=
  match splitChar ',' (pyStrip out).toList with
  | [w, h] => some (String.mk w, String.mk h)
  | _ => none

/-- The `if max_height and int(height) > max_height` comparison once the
height string parsed (line 514); a ValueError from int() (pyInt none) is
absorbed by the `except ValueError: pass` and the file is accepted. -/
def checkHeight (maxH : Nat) (hi : Option Int) : Bool × Bool :=
  match hi with
  | some h => if h > (maxH : Int) then (false, true) else (true, false)
  | none => (true, false)

/-- Lines 511-517 for a zero exit status: unpack `width, height` from the
comma-split stdout (a non-2-tuple raises ValueError, absorbed → accept)
and apply the height limit if one is configured. -/
def checkParsed (maxH : Nat) (wh : Option (String × String)) : Bool × Bool :=
  match wh with
  | some (_, hs) => if maxH ≠ 0 then checkHeight maxH (pyInt hs) else (true, false)
  | none => (true, false)

def _check_video_file (maxH : Nat) (fileExists : Bool) (probe : ProbeResult) :
    Bool × Bool :=
  if !fileExists then (false, false)
  else if probe.returncode = 0 then checkParsed maxH (parseWH probe.stdout)
  else (true, false)

/-! ### Path remapping before handoff: _send_video_with_timeout
(main.py lines 568-583)

path_mappings is a dict virtual-prefix to real-prefix, iterated in
insertion order, embedded as an association list.  Path.resolve() is
embedded as the identity (paths are taken as already-resolved absolute
strings).  The loop applies the FIRST entry whose resolved real path is a
string prefix of the resolved file path and breaks. -/

/-- str.rstrip("/"). -/
def rstripSlash (s : String) : String :=
  String.mk ((s.toList.reverse.dropWhile (· = '/')).reverse)

/-- Lines 576-579: relative remainder, backslashes to slashes (the
single-character str.replace), a leading slash ensured, appended to the
virtual prefix. -/
def applyMapping (virt real p : String) : String :=
  let rel := String.mk ((p.toList.drop real.length).map (fun c => if c = '\\' then '/' else c))
  let rel := if strPrefix "/" rel then rel else "/" ++ rel
  rstripSlash virt ++ rel

def sendPath (mappings : List (String × String)) (p : String) : String :=
  match mappings with
  | [] => p
  | (virt, real) :: rest =>
      if strPrefix real p then applyMapping virt real p else sendPath rest p

/-- Modelled from the spec: the path translation described in section 6
— among the remap entries whose real-path prefix matches the file path,
apply the one with the longest matching prefix (the code under test is
sendPath; this definition exists only to compare the two). -/
def sendPathLongestSpec (mappings : List (String × String)) (p : String) : String :=
  let matches_ := mappings.filter (fun e => strPrefix e.2 p)
  match matches_.foldl
      (fun best e =>
        match best with
        | none => some e
        | some b => if e.2.length > b.2.length then some e else some b)
      none with
  | some (virt, real) => applyMapping virt real p
  | none => p

/-- The size-limit behaviour of claim C2, for one limit and rendition
list: an attempted rendition never had an over-limit size estimate; a
reached, height-passing rendition with no estimate is attempted; an
actually-oversized download is never accepted; only the accepted file
remains on disk (an oversized one is deleted); and a failed candidate
leaves the outcome to the remaining candidates (the loop continues). -/
def C2SizeProp (hL sL : Nat) (title : String) (fs : List Fmt) : Prop :=
  (∀ f ∈ (_download_with_ytdlp hL sL title fs).attempts,
      ∀ e, sizeEstimate f = some e → e ≤ sL * MB) ∧
  (∀ f ∈ takeThrough (fullSuccessB hL sL) (selectFormats fs),
      sizeEstimate f = none → heightSkip hL f = false →
        f ∈ (_download_with_ytdlp hL sL title fs).attempts) ∧
  (∀ f p n, f.outcome = DLOutcome.ok p (some n) → n > sL * MB →
      fullSuccessB hL sL f = false) ∧
  ((selectFormats fs).find? (fullSuccessB hL sL) = none →
      (_download_with_ytdlp hL sL title fs).files = []) ∧
  (∀ g, (selectFormats fs).find? (fullSuccessB hL sL) = some g →
      (_download_with_ytdlp hL sL title fs).files = [okPath g]) ∧
  (∀ cs1 f cs2, selectFormats fs = cs1 ++ f :: cs2 → fullSuccessB hL sL f = false →
      resOk (_download_with_ytdlp hL sL title fs).result =
        ((cs1 ++ cs2).find? (fullSuccessB hL sL)).map (fun g => (okPath g, title)))

/-- The template-shape property of claim C9: the encoder is a function
of the numeric id (determinism), the output is 12 characters with the
fixed template characters at their fixed positions, and the six
interleaved positions carry characters of the 58-character alphabet. -/
def BvShapeProp (aid : Nat) (s : String) : Prop :=
  (∀ s2, _bili_av_to_bv aid = some s2 → s2 = s) ∧
  s.length = 12 ∧
  s.toList.get? 0 = some 'B' ∧ s.toList.get? 1 = some 'V' ∧ s.toList.get? 2 = some '1' ∧
  s.toList.get? 5 = some '4' ∧ s.toList.get? 7 = some '1' ∧ s.toList.get? 9 = some '7' ∧
  ∀ i ∈ ([3, 4, 6, 8, 10, 11] : List Nat), ∃ c, s.toList.get? i = some c ∧ c ∈ bvTable

/-! ## Theorems -/

/-! ### Identifier codec lemmas -/

theorem bvTable_length : bvTable.length = 58 := by decide

theorem bvIndex_lt (x i : Nat) : x / 58 ^ i % 58 < bvTable.length := by
  rw [bvTable_length]
  exact Nat.mod_lt _ (by norm_num)

theorem bvDigit_exists (x i : Nat) : ∃ c, bvDigit x i = some c := by
  unfold bvDigit
  rw [List.get?_eq_getElem?]
  exact ⟨_, List.getElem?_eq_getElem (bvIndex_lt x i)⟩

theorem bvDigit_mem {x i : Nat} {c : Char} (h : bvDigit x i = some c) : c ∈ bvTable := by
  unfold bvDigit at h
  exact List.get?_mem h

theorem av_to_bv_some (aid : Nat) : ∃ s, _bili_av_to_bv aid = some s := by
  obtain ⟨c0, h0⟩ := bvDigit_exists (Nat.xor aid bvXorConst + bvAddConst) 0
  obtain ⟨c1, h1⟩ := bvDigit_exists (Nat.xor aid bvXorConst + bvAddConst) 1
  obtain ⟨c2, h2⟩ := bvDigit_exists (Nat.xor aid bvXorConst + bvAddConst) 2
  obtain ⟨c3, h3⟩ := bvDigit_exists (Nat.xor aid bvXorConst + bvAddConst) 3
  obtain ⟨c4, h4⟩ := bvDigit_exists (Nat.xor aid bvXorConst + bvAddConst) 4
  obtain ⟨c5, h5⟩ := bvDigit_exists (Nat.xor aid bvXorConst + bvAddConst) 5
  simp only [_bili_av_to_bv, h0, h1, h2, h3, h4, h5, Option.some_bind]
  exact ⟨_, rfl⟩

theorem encodeOrRes_some (res : Option String) (bv fallback : String) (h : res = some bv) :
    encodeOrRes res fallback = biliVideoBase ++ bv := by
  unfold encodeOrRes
  rw [h]

theorem encodeOrRes_none (res : Option String) (fallback : String) (h : res = none) :
    encodeOrRes res fallback = fallback := by
  unfold encodeOrRes
  rw [h]

/-- Shared helper: a successful bare-legacy fullmatch routes the
normalizer through the codec with the raw input as fallback. -/
theorem normalize_bare_encode (redirect : String → Option String) (raw : String) (n : Nat)
    (h1 : parseBareAv (pyStrip raw) = some n) :
    _normalize_bili_url redirect raw = encodeOr n raw := by
  unfold _normalize_bili_url
  rw [h1]

/-- Shared helper: the bare-legacy branch of the normalizer (lines
359-365): a successful fullmatch routes through the codec and a
successful encode returns the constructed canonical URL. -/
theorem normalize_bare_some (redirect : String → Option String) (raw : String) (n : Nat)
    (bv : String) (h1 : parseBareAv (pyStrip raw) = some n)
    (h2 : _bili_av_to_bv n = some bv) :
    _normalize_bili_url redirect raw = biliVideoBase ++ bv :=
  (normalize_bare_encode redirect raw n h1).trans
    (by unfold encodeOr; exact encodeOrRes_some _ bv raw h2)

/-- Shared helper: the bare-legacy branch when the encoder fails: the raw
input is returned unchanged. -/
theorem normalize_bare_none (redirect : String → Option String) (raw : String) (n : Nat)
    (h1 : parseBareAv (pyStrip raw) = some n) (h2 : _bili_av_to_bv n = none) :
    _normalize_bili_url redirect raw = raw :=
  (normalize_bare_encode redirect raw n h1).trans
    (by unfold encodeOr; exact encodeOrRes_none _ raw h2)

/-! ### Claims C8, C9, C10: the identifier codec and the bare-legacy
normalizer branch -/

/-- C8: for every input that is exactly the bare legacy form av(digits),
normalize returns the constructed canonical URL carrying the encoding of
the digits, and returns the input unchanged only if encoding fails; the
witness instantiates this at av170001 with the BV-form of 170001 under
the fixed transform. -/
theorem c8_normalize_bare_legacy (redirect : String → Option String) (raw : String) (n : Nat)
    (h : parseBareAv (pyStrip raw) = some n) :
    (∀ bv, _bili_av_to_bv n = some bv →
        _normalize_bili_url redirect raw = biliVideoBase ++ bv) ∧
    (_bili_av_to_bv n = none → _normalize_bili_url redirect raw = raw) :=
  ⟨fun bv h2 => normalize_bare_some redirect raw n bv h h2,
   fun h2 => normalize_bare_none redirect raw n h h2⟩

theorem c8_witness :
    parseBareAv (pyStrip "av170001") = some 170001 ∧
    _bili_av_to_bv 170001 = some "BV17x411w7KC" ∧
    _normalize_bili_url (fun _ => none) "av170001" = biliVideoBase ++ "BV17x411w7KC" :=
  ⟨by decide, by decide,
   (c8_normalize_bare_legacy (fun _ => none) "av170001" 170001 (by decide)).1
     "BV17x411w7KC" (by decide)⟩

/-- C9: encode is deterministic (same numeric id, same output) and every
successful output is exactly 12 characters with B, V, 1 at positions 0-2,
4 at position 5, 1 at position 7 and 7 at position 9, the remaining six
interleaved positions being filled from the 58-character alphabet. -/
theorem c9_encode_deterministic_template (aid : Nat) (s : String)
    (h : _bili_av_to_bv aid = some s) : BvShapeProp aid s := by
  obtain ⟨c0, d0⟩ := bvDigit_exists (Nat.xor aid bvXorConst + bvAddConst) 0
  obtain ⟨c1, d1⟩ := bvDigit_exists (Nat.xor aid bvXorConst + bvAddConst) 1
  obtain ⟨c2, d2⟩ := bvDigit_exists (Nat.xor aid bvXorConst + bvAddConst) 2
  obtain ⟨c3, d3⟩ := bvDigit_exists (Nat.xor aid bvXorConst + bvAddConst) 3
  obtain ⟨c4, d4⟩ := bvDigit_exists (Nat.xor aid bvXorConst + bvAddConst) 4
  obtain ⟨c5, d5⟩ := bvDigit_exists (Nat.xor aid bvXorConst + bvAddConst) 5
  have hs : _bili_av_to_bv aid =
      some (String.mk ((((((bvTemplate.set 11 c0).set 10 c1).set 3 c2).set 8 c3).set 4 c4).set 6 c5)) := by
    simp only [_bili_av_to_bv, d0, d1, d2, d3, d4, d5, Option.some_bind]
  have hse : String.mk ((((((bvTemplate.set 11 c0).set 10 c1).set 3 c2).set 8 c3).set 4 c4).set 6 c5) = s :=
    Option.some.inj (hs.symm.trans h)
  subst hse
  refine ⟨fun s2 h2 => (Option.some.inj (hs.symm.trans h2)).symm, rfl,
    rfl, rfl, rfl, rfl, rfl, rfl, ?_⟩
  intro i hi
  simp only [List.mem_cons, List.not_mem_nil, or_false] at hi
  rcases hi with rfl | rfl | rfl | rfl | rfl | rfl
  · exact ⟨c2, rfl, bvDigit_mem d2⟩
  · exact ⟨c4, rfl, bvDigit_mem d4⟩
  · exact ⟨c5, rfl, bvDigit_mem d5⟩
  · exact ⟨c3, rfl, bvDigit_mem d3⟩
  · exact ⟨c1, rfl, bvDigit_mem d1⟩
  · exact ⟨c0, rfl, bvDigit_mem d0⟩

theorem c9_witness :
    _bili_av_to_bv 170001 = some "BV17x411w7KC" ∧ BvShapeProp 170001 "BV17x411w7KC" :=
  ⟨by decide, c9_encode_deterministic_template 170001 "BV17x411w7KC" (by decide)⟩

/-- C10: the encoder never returns absent — every digit computation is a
valid index into the 58-character alphabet, so for every non-negative
input the encoder succeeds, and the normalizer fallback branch that would
return a bare legacy input unchanged is never taken: a bare-legacy match
always yields the constructed canonical URL. -/
theorem c10_encoder_never_absent :
    (∀ aid : Nat, (_bili_av_to_bv aid).isSome) ∧
    (∀ x i : Nat, x / 58 ^ i % 58 < bvTable.length) ∧
    (∀ (redirect : String → Option String) (raw : String) (n : Nat),
      parseBareAv (pyStrip raw) = some n →
      ∃ bv, _bili_av_to_bv n = some bv ∧
        _normalize_bili_url redirect raw = biliVideoBase ++ bv) := by
  refine ⟨fun aid => ?_, bvIndex_lt, fun redirect raw n h1 => ?_⟩
  · obtain ⟨s, hs⟩ := av_to_bv_some aid
    rw [hs]
    rfl
  · obtain ⟨bv, hbv⟩ := av_to_bv_some n
    exact ⟨bv, hbv, normalize_bare_some redirect raw n bv h1 hbv⟩

theorem c10_witness :
    (_bili_av_to_bv 99).isSome ∧ parseBareAv (pyStrip "AV99") = some 99 ∧
    _normalize_bili_url (fun _ => none) "AV99" = biliVideoBase ++ "BV1xx411c7mj" := by
  obtain ⟨h1, h2, h3⟩ := c10_encoder_never_absent
  refine ⟨h1 99, by decide, ?_⟩
  obtain ⟨bv, hbv, hn⟩ := h3 (fun _ => none) "AV99" 99 (by decide)
  have hb : bv = "BV1xx411c7mj" :=
    Option.some.inj (hbv.symm.trans (show _bili_av_to_bv 99 = some "BV1xx411c7mj" by decide))
  rw [hn, hb]

/-! ### Claim C5: path remapping is first-match, not longest-prefix -/

/-- C5 counterexample: with the remap table holding /a for real prefix
/data before /b for real prefix /data/sub, the file /data/sub/x.mp4 is
translated by the first matching entry (/a), not by the entry with the
longest matching real prefix (/b): the code disagrees with the
longest-prefix-match description at this concrete input. -/
theorem c5_counterexample :
    sendPath [("/a", "/data"), ("/b", "/data/sub")] "/data/sub/x.mp4" = "/a/sub/x.mp4" ∧
    sendPathLongestSpec [("/a", "/data"), ("/b", "/data/sub")] "/data/sub/x.mp4" = "/b/x.mp4" ∧
    sendPath [("/a", "/data"), ("/b", "/data/sub")] "/data/sub/x.mp4" ≠
      sendPathLongestSpec [("/a", "/data"), ("/b", "/data/sub")] "/data/sub/x.mp4" :=
  ⟨by decide, by decide, by decide⟩

/-- C5 amended: before handoff the local path is translated by the FIRST
entry of the remap table (in insertion order) whose real-path prefix
matches the file path — table order, not prefix length, decides; when no
entry matches, the path is passed through unchanged. -/
theorem c5_first_match_applies (mappings : List (String × String)) (p : String) :
    (mappings.find? (fun e => strPrefix e.2 p) = none → sendPath mappings p = p) ∧
    (∀ virt real, mappings.find? (fun e => strPrefix e.2 p) = some (virt, real) →
      sendPath mappings p = applyMapping virt real p) := by
  induction mappings with
  | nil => exact ⟨fun _ => rfl, fun virt real h => by simp [List.find?] at h⟩
  | cons e rest ih =>
      obtain ⟨v, r⟩ := e
      by_cases h : strPrefix r p
      · refine ⟨fun hn => ?_, fun virt real hs => ?_⟩
        · simp only [List.find?_cons, h, if_pos] at hn
          exact absurd hn (by simp)
        · simp only [List.find?_cons, h, if_pos] at hs
          obtain ⟨rfl, rfl⟩ : v = virt ∧ r = real := by
            have h2 := Option.some.inj hs
            exact ⟨congrArg Prod.fst h2, congrArg Prod.snd h2⟩
          show (if strPrefix r p then applyMapping v r p else sendPath rest p) = applyMapping v r p
          rw [if_pos h]
      · refine ⟨fun hn => ?_, fun virt real hs => ?_⟩
        · simp only [List.find?_cons, h, if_neg] at hn
          show (if strPrefix r p then applyMapping v r p else sendPath rest p) = p
          rw [if_neg (by simp [h])]
          exact ih.1 hn
        · simp only [List.find?_cons, h, if_neg] at hs
          show (if strPrefix r p then applyMapping v r p else sendPath rest p) = applyMapping virt real p
          rw [if_neg (by simp [h])]
          exact ih.2 virt real hs

theorem c5_first_match_witness :
    ([("/a", "/data"), ("/b", "/data/sub")].find?
        (fun e => strPrefix e.2 "/data/sub/x.mp4") = some ("/a", "/data")) ∧
    sendPath [("/a", "/data"), ("/b", "/data/sub")] "/data/sub/x.mp4" =
      applyMapping "/a" "/data" "/data/sub/x.mp4" :=
  ⟨by decide,
   (c5_first_match_applies [("/a", "/data"), ("/b", "/data/sub")] "/data/sub/x.mp4").2
     "/a" "/data" (by decide)⟩

/-! ### Claim C7: the post-fetch validator -/

/-- C7: validate returns false exactly when the file does not exist or
when a height limit is configured, the inspection tool exited zero, its
output parsed as width,height, and the parsed height exceeds the limit;
in exactly the rejected-by-height case (and no other) the file is also
deleted.  In particular an inspection-tool error exit or unparseable
output conservatively accepts the file. -/
theorem c7_validator_conservative (maxH : Nat) (fileExists : Bool) (probe : ProbeResult) :
    ((_check_video_file maxH fileExists probe).1 = false ↔
      (fileExists = false ∨
        (maxH ≠ 0 ∧ probe.returncode = 0 ∧
          ∃ w hs h, parseWH probe.stdout = some (w, hs) ∧ pyInt hs = some h ∧
            (maxH : Int) < h))) ∧
    ((_check_video_file maxH fileExists probe).2 = true ↔
      (fileExists = true ∧ maxH ≠ 0 ∧ probe.returncode = 0 ∧
        ∃ w hs h, parseWH probe.stdout = some (w, hs) ∧ pyInt hs = some h ∧
          (maxH : Int) < h)) := by
  cases fileExists with
  | false => simp [_check_video_file]
  | true =>
      by_cases hrc : probe.returncode = 0
      · rcases hp : parseWH probe.stdout with _ | ⟨w, hs⟩
        · simp [_check_video_file, checkParsed, hrc, hp]
        · by_cases hm : maxH ≠ 0
          · rcases hi : pyInt hs with _ | h
            · simp [_check_video_file, checkParsed, checkHeight, hrc, hp, hi, hm]
            · by_cases hgt : h > (maxH : Int)
              · have hres : _check_video_file maxH true probe = (false, true) := by
                  simp [_check_video_file, checkParsed, checkHeight, hrc, hp, hi, hgt, hm]
                rw [hres]
                exact ⟨⟨fun _ => Or.inr ⟨hm, hrc, w, hs, h, rfl, hi, hgt⟩, fun _ => rfl⟩,
                       ⟨fun _ => ⟨rfl, hm, hrc, w, hs, h, rfl, hi, hgt⟩, fun _ => rfl⟩⟩
              · simp [_check_video_file, checkParsed, checkHeight, hrc, hp, hi, hm, hgt]
                omega
          · simp [_check_video_file, checkParsed, hrc, hp, hm]
      · simp [_check_video_file, hrc]

/-! ### Claim C6: extractor error isolation -/

theorem mem_addUnique_iff (acc : List String) (u v : String) :
    v ∈ addUnique acc u ↔ v ∈ acc ∨ v = u := by
  unfold addUnique
  by_cases h : u ∈ acc
  · rw [if_pos h]
    exact ⟨Or.inl, fun hv => hv.elim id (fun e => e ▸ h)⟩
  · rw [if_neg h]
    simp [List.mem_append]

theorem mem_addFound_iff (us : List String) (acc : List String) (v : String) :
    v ∈ addFound acc us ↔ v ∈ acc ∨ v ∈ us := by
  induction us generalizing acc with
  | nil => simp [addFound]
  | cons u us ih =>
      show v ∈ addFound (addUnique acc u) us ↔ _
      rw [ih, mem_addUnique_iff]
      simp [List.mem_cons]
      tauto

theorem mem_foldl_addFound_iff (fu : String → List String) (l : List String)
    (acc : List String) (v : String) :
    v ∈ l.foldl (fun a s => addFound a (fu s)) acc ↔
      v ∈ acc ∨ v ∈ l.foldr (fun s r => fu s ++ r) [] := by
  induction l generalizing acc with
  | nil => simp
  | cons s l ih =>
      show v ∈ l.foldl _ (addFound acc (fu s)) ↔ _
      rw [ih, mem_addFound_iff]
      simp [List.mem_append]
      tauto

theorem mem_segStep_iff (fu : String → List String) (jp : String → Option PyVal)
    (acc : List String) (s : Seg) (v : String) :
    v ∈ segStep fu jp acc s ↔ v ∈ acc ∨ v ∈ segSources fu jp s := by
  cases s with
  | text t => exact mem_addFound_iff _ _ _
  | jsonCard d c =>
      show v ∈ (match jp (segRaw d c) with
        | some obj => (_walk_strings obj).foldl (fun a s => addFound a (fu s))
            (addFound acc (fu (segRaw d c)))
        | none => addFound acc (fu (segRaw d c))) ↔ _
      rcases hj : jp (segRaw d c) with _ | obj
      · rw [mem_addFound_iff]
        show _ ↔ v ∈ acc ∨ v ∈ fu (segRaw d c) ++
          (match jp (segRaw d c) with
           | some obj => (_walk_strings obj).foldr (fun s r => fu s ++ r) []
           | none => [])
        rw [hj]
        simp
      · rw [mem_foldl_addFound_iff, mem_addFound_iff]
        show _ ↔ v ∈ acc ∨ v ∈ fu (segRaw d c) ++
          (match jp (segRaw d c) with
           | some obj => (_walk_strings obj).foldr (fun s r => fu s ++ r) []
           | none => [])
        rw [hj]
        simp [List.mem_append]
        tauto
  | xmlCard d c => exact mem_addFound_iff _ _ _
  | share url => exact mem_addFound_iff _ _ _
  | other s => exact mem_addFound_iff _ _ _

theorem mem_foldl_segStep (fu : String → List String) (jp : String → Option PyVal)
    (segs : List Seg) (acc : List String) (v : String) :
    v ∈ segs.foldl (segStep fu jp) acc ↔
      v ∈ acc ∨ ∃ s ∈ segs, v ∈ segSources fu jp s := by
  induction segs generalizing acc with
  | nil => simp
  | cons s segs ih =>
      show v ∈ segs.foldl _ (segStep fu jp acc s) ↔ _
      rw [ih, mem_segStep_iff]
      constructor
      · rintro ((hv | hv) | ⟨s2, hs2, hv⟩)
        · exact Or.inl hv
        · exact Or.inr ⟨s, List.mem_cons_self s segs, hv⟩
        · exact Or.inr ⟨s2, List.mem_cons_of_mem s hs2, hv⟩
      · rintro (hv | ⟨s2, hs2, hv⟩)
        · exact Or.inl (Or.inl hv)
        · rcases List.mem_cons.1 hs2 with rfl | hs2
          · exact Or.inl (Or.inr hv)
          · exact Or.inr ⟨s2, hs2, hv⟩

theorem mem_foldl_addUnique_mono {α : Type} (g : α → String) (l : List α)
    (acc : List String) (v : String) (hv : v ∈ acc) :
    v ∈ l.foldl (fun a m => addUnique a (g m)) acc := by
  induction l generalizing acc with
  | nil => exact hv
  | cons m l ih => exact ih _ ((mem_addUnique_iff _ _ _).2 (Or.inl hv))

/-- C6: a single-segment extraction failure (the modelled failure is a
JSON decode error, which the json branch absorbs after collecting the raw
text matches) never suppresses candidates from other segments: every
candidate collectable from any segment of the message is in the
extractor output, whatever the JSON parser does on the other segments.
The witness runs a message holding one malformed JSON card and one valid
plain-text link: the link is extracted. -/
theorem c6_extractor_per_segment (fu : String → List String) (jp : String → Option PyVal)
    (segs : List Seg) (s : Seg) (u : String) (hs : s ∈ segs)
    (hu : u ∈ segSources fu jp s) :
    u ∈ _extract_bili_urls_from_event fu jp segs := by
  unfold _extract_bili_urls_from_event
  apply mem_foldl_addUnique_mono
  apply mem_foldl_addUnique_mono
  exact (mem_foldl_segStep fu jp segs [] u).2 (Or.inr ⟨s, hs, hu⟩)

theorem c6_witness :
    (Seg.text (some "https://www.bilibili.com/video/BV1xx411c7mD") ∈
      [Seg.jsonCard (some "not a json payload]") none,
       Seg.text (some "https://www.bilibili.com/video/BV1xx411c7mD")]) ∧
    ("https://www.bilibili.com/video/BV1xx411c7mD" ∈
      segSources (fun t => if t = "https://www.bilibili.com/video/BV1xx411c7mD" then [t] else [])
        (fun _ => none) (Seg.text (some "https://www.bilibili.com/video/BV1xx411c7mD"))) ∧
    ("https://www.bilibili.com/video/BV1xx411c7mD" ∈
      _extract_bili_urls_from_event
        (fun t => if t = "https://www.bilibili.com/video/BV1xx411c7mD" then [t] else [])
        (fun _ => none)
        [Seg.jsonCard (some "not a json payload]") none,
         Seg.text (some "https://www.bilibili.com/video/BV1xx411c7mD")]) ∧
    (_extract_bili_urls_from_event
        (fun t => if t = "https://www.bilibili.com/video/BV1xx411c7mD" then [t] else [])
        (fun _ => none)
        [Seg.jsonCard (some "not a json payload]") none,
         Seg.text (some "https://www.bilibili.com/video/BV1xx411c7mD")] =
      ["https://www.bilibili.com/video/BV1xx411c7mD"]) :=
  ⟨by decide, by decide,
   c6_extractor_per_segment
     (fun t => if t = "https://www.bilibili.com/video/BV1xx411c7mD" then [t] else [])
     (fun _ => none)
     [Seg.jsonCard (some "not a json payload]") none,
      Seg.text (some "https://www.bilibili.com/video/BV1xx411c7mD")]
     (Seg.text (some "https://www.bilibili.com/video/BV1xx411c7mD"))
     "https://www.bilibili.com/video/BV1xx411c7mD" (by decide) (by decide),
   by decide⟩

/-! ### Rendition selector lemmas: the sort -/

theorem keyLe_of_keyLt {p q : Nat × Nat} (h : keyLt p q) : keyLe p q := by
  unfold keyLt at h
  unfold keyLe
  rcases h with h | ⟨h1, h2⟩
  · exact Or.inl h
  · exact Or.inr ⟨h1, Nat.le_of_lt h2⟩

theorem keyLe_of_not_keyLt {p q : Nat × Nat} (h : ¬keyLt p q) : keyLe q p := by
  unfold keyLt at h
  unfold keyLe
  rcases Nat.lt_trichotomy q.1 p.1 with h1 | h1 | h1
  · exact Or.inl h1
  · exact Or.inr ⟨h1, by omega⟩
  · exact absurd (Or.inl h1) h

theorem keyLe_trans {p q r : Nat × Nat} (h1 : keyLe p q) (h2 : keyLe q r) : keyLe p r := by
  unfold keyLe at h1 h2 ⊢
  rcases h1 with h1 | ⟨h1a, h1b⟩ <;> rcases h2 with h2 | ⟨h2a, h2b⟩
  · exact Or.inl (Nat.lt_trans h1 h2)
  · exact Or.inl (h2a ▸ h1)
  · exact Or.inl (h1a ▸ h2)
  · exact Or.inr ⟨h1a.trans h2a, Nat.le_trans h1b h2b⟩

theorem insertDesc_perm (f : Fmt) (l : List Fmt) : (insertDesc f l).Perm (f :: l) := by
  induction l with
  | nil => exact List.Perm.refl _
  | cons g gs ih =>
      unfold insertDesc
      by_cases h : keyLt (fmtKey g) (fmtKey f)
      · rw [if_pos h]
      · rw [if_neg h]
        exact (ih.cons g).trans (List.Perm.swap f g gs)

theorem mem_insertDesc {f x : Fmt} {l : List Fmt} (h : x ∈ insertDesc f l) :
    x = f ∨ x ∈ l := by
  have := (insertDesc_perm f l).mem_iff.1 h
  simpa using this

theorem insertDesc_pairwise (f : Fmt) (l : List Fmt)
    (h : l.Pairwise (fun a b => keyLe (fmtKey b) (fmtKey a))) :
    (insertDesc f l).Pairwise (fun a b => keyLe (fmtKey b) (fmtKey a)) := by
  induction l with
  | nil => exact List.pairwise_singleton _ f
  | cons g gs ih =>
      rw [List.pairwise_cons] at h
      obtain ⟨hg, hgs⟩ := h
      unfold insertDesc
      by_cases hk : keyLt (fmtKey g) (fmtKey f)
      · rw [if_pos hk]
        refine List.Pairwise.cons ?_ (List.Pairwise.cons hg hgs)
        intro x hx
        rcases List.mem_cons.1 hx with rfl | hx
        · exact keyLe_of_keyLt hk
        · exact keyLe_trans (hg x hx) (keyLe_of_keyLt hk)
      · rw [if_neg hk]
        refine List.Pairwise.cons ?_ (ih hgs)
        intro x hx
        rcases mem_insertDesc hx with rfl | hx
        · exact keyLe_of_not_keyLt hk
        · exact hg x hx

theorem foldl_insertDesc_perm (l : List Fmt) (acc : List Fmt) :
    (l.foldl (fun a f => insertDesc f a) acc).Perm (l ++ acc) := by
  induction l generalizing acc with
  | nil => exact List.Perm.refl _
  | cons f l ih =>
      show (l.foldl (fun a f => insertDesc f a) (insertDesc f acc)).Perm (f :: (l ++ acc))
      refine ((ih (insertDesc f acc)).trans ?_).trans List.perm_middle
      exact List.Perm.append_left l (insertDesc_perm f acc)

theorem sortDesc_perm (l : List Fmt) : (sortDesc l).Perm l := by
  have h := foldl_insertDesc_perm l []
  simpa using h

theorem foldl_insertDesc_pairwise (l : List Fmt) (acc : List Fmt)
    (h : acc.Pairwise (fun a b => keyLe (fmtKey b) (fmtKey a))) :
    (l.foldl (fun a f => insertDesc f a) acc).Pairwise
      (fun a b => keyLe (fmtKey b) (fmtKey a)) := by
  induction l generalizing acc with
  | nil => exact h
  | cons f l ih => exact ih _ (insertDesc_pairwise f acc h)

theorem sortDesc_pairwise (l : List Fmt) :
    (sortDesc l).Pairwise (fun a b => keyLe (fmtKey b) (fmtKey a)) :=
  foldl_insertDesc_pairwise l [] List.Pairwise.nil

theorem keyLt_ne {p q : Nat × Nat} (h : keyLt p q) : p ≠ q := by
  intro he
  subst he
  unfold keyLt at h
  rcases h with h | ⟨h1, h2⟩ <;> omega

theorem keyLe_keyLt_trans {p q r : Nat × Nat} (h1 : keyLe p q) (h2 : keyLt q r) :
    keyLt p r := by
  unfold keyLe at h1
  unfold keyLt at h2 ⊢
  rcases h1 with h1 | ⟨h1a, h1b⟩ <;> rcases h2 with h2 | ⟨h2a, h2b⟩
  · exact Or.inl (Nat.lt_trans h1 h2)
  · exact Or.inl (h2a ▸ h1)
  · exact Or.inl (h1a ▸ h2)
  · exact Or.inr ⟨h1a.trans h2a, by omega⟩

/-- insertDesc splits its input around the insertion point: the passed
prefix, then f, then the untouched suffix, whose head (when present) has
a strictly smaller key. -/
theorem insertDesc_split (f : Fmt) (l : List Fmt) :
    ∃ l1 l2, l = l1 ++ l2 ∧ insertDesc f l = l1 ++ f :: l2 ∧
      (l2 = [] ∨ ∃ g gs, l2 = g :: gs ∧ keyLt (fmtKey g) (fmtKey f)) := by
  induction l with
  | nil => exact ⟨[], [], rfl, rfl, Or.inl rfl⟩
  | cons g gs ih =>
      by_cases h : keyLt (fmtKey g) (fmtKey f)
      · refine ⟨[], g :: gs, rfl, ?_, Or.inr ⟨g, gs, rfl, h⟩⟩
        unfold insertDesc
        rw [if_pos h]
        rfl
      · obtain ⟨l1, l2, he, hi, hp⟩ := ih
        refine ⟨g :: l1, l2, by rw [List.cons_append, ← he], ?_, hp⟩
        show (if keyLt (fmtKey g) (fmtKey f) then f :: g :: gs else g :: insertDesc f gs) =
          (g :: l1) ++ f :: l2
        rw [if_neg h, hi]
        rfl

theorem filter_insertDesc_ne (f : Fmt) (l : List Fmt) (k : Nat × Nat)
    (hk : fmtKey f ≠ k) :
    (insertDesc f l).filter (fun x => decide (fmtKey x = k)) =
      l.filter (fun x => decide (fmtKey x = k)) := by
  obtain ⟨l1, l2, he, hi, _⟩ := insertDesc_split f l
  rw [hi, he, List.filter_append, List.filter_append, List.filter_cons]
  simp [hk]

/-- Stability of one insertion into a descending-sorted list: f lands
after every element sharing its key, so the equal-key subsequence just
gains f at its end. -/
theorem filter_insertDesc_eq (f : Fmt) (l : List Fmt)
    (hsort : l.Pairwise (fun a b => keyLe (fmtKey b) (fmtKey a))) :
    (insertDesc f l).filter (fun x => decide (fmtKey x = fmtKey f)) =
      l.filter (fun x => decide (fmtKey x = fmtKey f)) ++ [f] := by
  obtain ⟨l1, l2, he, hi, hp⟩ := insertDesc_split f l
  have h2 : l2.filter (fun x => decide (fmtKey x = fmtKey f)) = [] := by
    rcases hp with rfl | ⟨g, gs, rfl, hg⟩
    · rfl
    · rw [List.filter_eq_nil_iff]
      intro x hx
      have hle : keyLe (fmtKey x) (fmtKey g) := by
        rcases List.mem_cons.1 hx with rfl | hx
        · exact Or.inr ⟨rfl, Nat.le_refl _⟩
        · subst he
          have hpair := (List.pairwise_append.1 hsort).2.1
          exact (List.pairwise_cons.1 hpair).1 x hx
      simpa using keyLt_ne (keyLe_keyLt_trans hle hg)
  rw [hi, he, List.filter_append, List.filter_append, List.filter_cons, h2]
  simp

theorem foldl_insertDesc_filter (l : List Fmt) (acc : List Fmt) (k : Nat × Nat)
    (hsort : acc.Pairwise (fun a b => keyLe (fmtKey b) (fmtKey a))) :
    (l.foldl (fun a f => insertDesc f a) acc).filter (fun x => decide (fmtKey x = k)) =
      acc.filter (fun x => decide (fmtKey x = k)) ++
        l.filter (fun x => decide (fmtKey x = k)) := by
  induction l generalizing acc with
  | nil => simp
  | cons f l ih =>
      show ((l.foldl (fun a f => insertDesc f a) (insertDesc f acc)).filter _) = _
      rw [ih (insertDesc f acc) (insertDesc_pairwise f acc hsort)]
      by_cases hk : fmtKey f = k
      · subst hk
        rw [filter_insertDesc_eq f acc hsort, List.filter_cons]
        simp [List.append_assoc]
      · rw [filter_insertDesc_ne f acc k hk, List.filter_cons]
        simp [hk]

/-- Stability of the whole sort, exactly as CPython documents list.sort
with reverse=True: for every key value, the elements carrying that key
appear in the output in their input order. -/
theorem sortDesc_filter_key (l : List Fmt) (k : Nat × Nat) :
    (sortDesc l).filter (fun x => decide (fmtKey x = k)) =
      l.filter (fun x => decide (fmtKey x = k)) := by
  have h := foldl_insertDesc_filter l [] k List.Pairwise.nil
  simpa using h

theorem selectFormats_perm (fs : List Fmt) :
    (selectFormats fs).Perm (fs.filter (fun f => decide (f.vcodec ≠ some "none"))) :=
  sortDesc_perm _

theorem selectFormats_vcodec {fs : List Fmt} {f : Fmt} (h : f ∈ selectFormats fs) :
    f.vcodec ≠ some "none" := by
  have hm := (selectFormats_perm fs).mem_iff.1 h
  have := (List.mem_filter.1 hm).2
  simpa using this

/-! ### Rendition selector lemmas: the loop -/

theorem selectLoop_attempts (hL sL : Nat) (title : String) (cs : List Fmt)
    (le : Option String) :
    (selectLoop hL sL title cs le).attempts =
      (takeThrough (fullSuccessB hL sL) cs).filter (precheckPass hL sL) := by
  induction cs generalizing le with
  | nil => rfl
  | cons f rest ih =>
      by_cases hH : heightSkip hL f = true
      · have hFS : fullSuccessB hL sL f = false := by simp [fullSuccessB, hH]
        have hPC : precheckPass hL sL f = false := by simp [precheckPass, hH]
        simp [selectLoop, takeThrough, List.filter, hH, hFS, hPC, ih le]
      · replace hH : heightSkip hL f = false := by simpa using hH
        by_cases hS : sizeSkip sL f = true
        · have hFS : fullSuccessB hL sL f = false := by simp [fullSuccessB, hH, hS]
          have hPC : precheckPass hL sL f = false := by simp [precheckPass, hH, hS]
          simp [selectLoop, takeThrough, List.filter, hH, hS, hFS, hPC, ih le]
        · replace hS : sizeSkip sL f = false := by simpa using hS
          have hPC : precheckPass hL sL f = true := by simp [precheckPass, hH, hS]
          rcases ho : f.outcome with m | _ | ⟨p, sz⟩
          · have hFS : fullSuccessB hL sL f = false := by simp [fullSuccessB, hH, hS, ho]
            simp [selectLoop, takeThrough, List.filter, hH, hS, ho, hFS, hPC, ih]
          · have hFS : fullSuccessB hL sL f = false := by simp [fullSuccessB, hH, hS, ho]
            simp [selectLoop, takeThrough, List.filter, hH, hS, ho, hFS, hPC, ih]
          · by_cases hsl : sL = 0
            · subst hsl
              have hFS : fullSuccessB hL 0 f = true := by
                simp [fullSuccessB, hH, hS, ho]
              simp [selectLoop, takeThrough, List.filter, hH, hS, ho, hFS, hPC]
            · rcases sz with _ | n
              · have hFS : fullSuccessB hL sL f = true := by
                  simp [fullSuccessB, hH, hS, ho, hsl]
                simp [selectLoop, takeThrough, List.filter, hH, hS, ho, hsl, hFS, hPC]
              · by_cases hn : n > sL * MB
                · have hFS : fullSuccessB hL sL f = false := by
                    simp [fullSuccessB, hH, hS, ho, hsl, hn]
                  simp [selectLoop, takeThrough, List.filter, hH, hS, ho, hsl, hn, hFS,
                    hPC, ih]
                · have hFS : fullSuccessB hL sL f = true := by
                    simp [fullSuccessB, hH, hS, ho, hsl, hn]
                  simp [selectLoop, takeThrough, List.filter, hH, hS, ho, hsl, hn, hFS, hPC]

theorem selectLoop_result (hL sL : Nat) (title : String) (cs : List Fmt)
    (le : Option String) :
    resOk (selectLoop hL sL title cs le).result =
      (cs.find? (fullSuccessB hL sL)).map (fun f => (okPath f, title)) := by
  induction cs generalizing le with
  | nil => rfl
  | cons f rest ih =>
      by_cases hH : heightSkip hL f = true
      · have hFS : fullSuccessB hL sL f = false := by simp [fullSuccessB, hH]
        simp [selectLoop, List.find?_cons, hH, hFS, ih le]
      · replace hH : heightSkip hL f = false := by simpa using hH
        by_cases hS : sizeSkip sL f = true
        · have hFS : fullSuccessB hL sL f = false := by simp [fullSuccessB, hH, hS]
          simp [selectLoop, List.find?_cons, hH, hS, hFS, ih le]
        · replace hS : sizeSkip sL f = false := by simpa using hS
          rcases ho : f.outcome with m | _ | ⟨p, sz⟩
          · have hFS : fullSuccessB hL sL f = false := by simp [fullSuccessB, hH, hS, ho]
            simp [selectLoop, List.find?_cons, hH, hS, ho, hFS, ih]
          · have hFS : fullSuccessB hL sL f = false := by simp [fullSuccessB, hH, hS, ho]
            simp [selectLoop, List.find?_cons, hH, hS, ho, hFS, ih]
          · by_cases hsl : sL = 0
            · subst hsl
              have hFS : fullSuccessB hL 0 f = true := by simp [fullSuccessB, hH, hS, ho]
              simp [selectLoop, List.find?_cons, hH, hS, ho, hFS, resOk, okPath]
            · rcases sz with _ | n
              · have hFS : fullSuccessB hL sL f = true := by
                  simp [fullSuccessB, hH, hS, ho, hsl]
                simp [selectLoop, List.find?_cons, hH, hS, ho, hsl, hFS, resOk, okPath]
              · by_cases hn : n > sL * MB
                · have hFS : fullSuccessB hL sL f = false := by
                    simp [fullSuccessB, hH, hS, ho, hsl, hn]
                  simp [selectLoop, List.find?_cons, hH, hS, ho, hsl, hn, hFS, ih]
                · have hFS : fullSuccessB hL sL f = true := by
                    simp [fullSuccessB, hH, hS, ho, hsl, hn]
                  simp [selectLoop, List.find?_cons, hH, hS, ho, hsl, hn, hFS, resOk, okPath]

theorem selectLoop_files (hL sL : Nat) (title : String) (cs : List Fmt)
    (le : Option String) :
    (selectLoop hL sL title cs le).files =
      ((cs.find? (fullSuccessB hL sL)).map okPath).toList := by
  induction cs generalizing le with
  | nil => rfl
  | cons f rest ih =>
      by_cases hH : heightSkip hL f = true
      · have hFS : fullSuccessB hL sL f = false := by simp [fullSuccessB, hH]
        simp [selectLoop, List.find?_cons, hH, hFS, ih le]
      · replace hH : heightSkip hL f = false := by simpa using hH
        by_cases hS : sizeSkip sL f = true
        · have hFS : fullSuccessB hL sL f = false := by simp [fullSuccessB, hH, hS]
          simp [selectLoop, List.find?_cons, hH, hS, hFS, ih le]
        · replace hS : sizeSkip sL f = false := by simpa using hS
          rcases ho : f.outcome with m | _ | ⟨p, sz⟩
          · have hFS : fullSuccessB hL sL f = false := by simp [fullSuccessB, hH, hS, ho]
            simp [selectLoop, List.find?_cons, hH, hS, ho, hFS, ih]
          · have hFS : fullSuccessB hL sL f = false := by simp [fullSuccessB, hH, hS, ho]
            simp [selectLoop, List.find?_cons, hH, hS, ho, hFS, ih]
          · by_cases hsl : sL = 0
            · subst hsl
              have hFS : fullSuccessB hL 0 f = true := by simp [fullSuccessB, hH, hS, ho]
              simp [selectLoop, List.find?_cons, hH, hS, ho, hFS, okPath]
            · rcases sz with _ | n
              · have hFS : fullSuccessB hL sL f = true := by
                  simp [fullSuccessB, hH, hS, ho, hsl]
                simp [selectLoop, List.find?_cons, hH, hS, ho, hsl, hFS, okPath]
              · by_cases hn : n > sL * MB
                · have hFS : fullSuccessB hL sL f = false := by
                    simp [fullSuccessB, hH, hS, ho, hsl, hn]
                  simp [selectLoop, List.find?_cons, hH, hS, ho, hsl, hn, hFS, ih]
                · have hFS : fullSuccessB hL sL f = true := by
                    simp [fullSuccessB, hH, hS, ho, hsl, hn]
                  simp [selectLoop, List.find?_cons, hH, hS, ho, hsl, hn, hFS, okPath]

theorem getLast?_getD_cons {α : Type} (a d : α) (l : List α) :
    ((a :: l).getLast?).getD d = (l.getLast?).getD a := by
  cases l with
  | nil => rfl
  | cons b l =>
      rw [List.getLast?_cons_cons]
      have h : ((b :: l).getLast?).isSome := by
        rw [List.getLast?_isSome]
        exact List.cons_ne_nil b l
      obtain ⟨x, hx⟩ := Option.isSome_iff_exists.1 h
      rw [hx]
      rfl

theorem selectLoop_error (hL sL : Nat) (title : String) (cs : List Fmt)
    (le : Option String) (hnone : cs.find? (fullSuccessB hL sL) = none) :
    (selectLoop hL sL title cs le).result =
      .error (((cs.filterMap (attemptFailMsg hL sL)).getLast?).getD
        (le.getD genericFailMsg)) := by
  induction cs generalizing le with
  | nil => rfl
  | cons f rest ih =>
      have hsplit : fullSuccessB hL sL f = false ∧
          rest.find? (fullSuccessB hL sL) = none := by
        rw [List.find?_cons] at hnone
        by_cases hFS : fullSuccessB hL sL f = true
        · simp only [hFS] at hnone
          exact absurd hnone (by simp)
        · replace hFS : fullSuccessB hL sL f = false := by simpa using hFS
          simp only [hFS] at hnone
          exact ⟨hFS, hnone⟩
      obtain ⟨hFS, hrest⟩ := hsplit
      by_cases hH : heightSkip hL f = true
      · have hAF : attemptFailMsg hL sL f = none := by simp [attemptFailMsg, hH]
        simp [selectLoop, List.filterMap_cons, hH, hAF, ih le hrest]
      · replace hH : heightSkip hL f = false := by simpa using hH
        by_cases hS : sizeSkip sL f = true
        · have hAF : attemptFailMsg hL sL f = none := by simp [attemptFailMsg, hH, hS]
          simp [selectLoop, List.filterMap_cons, hH, hS, hAF, ih le hrest]
        · replace hS : sizeSkip sL f = false := by simpa using hS
          rcases ho : f.outcome with m | _ | ⟨p, sz⟩
          · have hAF : attemptFailMsg hL sL f = some m := by
              simp [attemptFailMsg, hH, hS, ho]
            rw [show (selectLoop hL sL title (f :: rest) le).result =
                (selectLoop hL sL title rest (some m)).result by
              simp [selectLoop, hH, hS, ho]]
            rw [ih (some m) hrest]
            simp [List.filterMap_cons, hAF, getLast?_getD_cons]
          · have hAF : attemptFailMsg hL sL f = some noFileMsg := by
              simp [attemptFailMsg, hH, hS, ho]
            rw [show (selectLoop hL sL title (f :: rest) le).result =
                (selectLoop hL sL title rest (some noFileMsg)).result by
              simp [selectLoop, hH, hS, ho]]
            rw [ih (some noFileMsg) hrest]
            simp [List.filterMap_cons, hAF, getLast?_getD_cons]
          · by_cases hsl : sL = 0
            · subst hsl
              exfalso
              simp [fullSuccessB, hH, hS, ho] at hFS
            · rcases sz with _ | n
              · exfalso
                simp [fullSuccessB, hH, hS, ho, hsl] at hFS
              · by_cases hn : n > sL * MB
                · have hAF : attemptFailMsg hL sL f = some oversizeMsg := by
                    simp [attemptFailMsg, hH, hS, ho, hsl, hn]
                  rw [show (selectLoop hL sL title (f :: rest) le).result =
                      (selectLoop hL sL title rest (some oversizeMsg)).result by
                    simp [selectLoop, hH, hS, ho, hsl, hn]]
                  rw [ih (some oversizeMsg) hrest]
                  simp [List.filterMap_cons, hAF, getLast?_getD_cons]
                · exfalso
                  simp [fullSuccessB, hH, hS, ho, hsl, hn] at hFS

theorem find?_append_some {α : Type} (p : α → Bool) {l1 : List α} (l2 : List α) {x : α}
    (h : l1.find? p = some x) : (l1 ++ l2).find? p = some x := by
  induction l1 with
  | nil => exact absurd h (by simp)
  | cons a l ih =>
      rw [List.find?_cons] at h
      rw [List.cons_append, List.find?_cons]
      by_cases hp : p a = true
      · simp only [hp] at h ⊢
        exact h
      · replace hp : p a = false := by simpa using hp
        simp only [hp] at h ⊢
        exact ih h

theorem find?_append_none {α : Type} (p : α → Bool) {l1 : List α} (l2 : List α)
    (h : l1.find? p = none) : (l1 ++ l2).find? p = l2.find? p := by
  induction l1 with
  | nil => rfl
  | cons a l ih =>
      rw [List.find?_cons] at h
      rw [List.cons_append, List.find?_cons]
      by_cases hp : p a = true
      · simp only [hp] at h
        exact absurd h (by simp)
      · replace hp : p a = false := by simpa using hp
        simp only [hp] at h ⊢
        exact ih h

/-! ### Claims C1-C4: the rendition selection loop -/

/-- C1: the selector drops every audio-only rendition (vcodec "none")
and ranks the rest descending by (height, bitrate): the candidate list
is a permutation of the filtered input, sorted by that key, and stable —
for every key value the equal-keyed candidates keep the metadata-query
order, as CPython's stable list.sort with reverse=True does, so the
first three list conjuncts determine the ranked list uniquely.  The
selector then attempts downloads in exactly that order up to and
including the first fully successful candidate (the attempts are the
precheck-passing prefix of takeThrough), and the returned value is the
path and title of the first candidate passing the pre-checks, the
retrieval and the post-check, with no candidate after it evaluated. -/
theorem c1_selection_first_fit (hL sL : Nat) (title : String) (fs : List Fmt) :
    (∀ f ∈ selectFormats fs, f.vcodec ≠ some "none") ∧
    (selectFormats fs).Perm (fs.filter (fun f => decide (f.vcodec ≠ some "none"))) ∧
    (selectFormats fs).Pairwise (fun a b => keyLe (fmtKey b) (fmtKey a)) ∧
    (∀ k : Nat × Nat,
      (selectFormats fs).filter (fun f => decide (fmtKey f = k)) =
        (fs.filter (fun f => decide (f.vcodec ≠ some "none"))).filter
          (fun f => decide (fmtKey f = k))) ∧
    (_download_with_ytdlp hL sL title fs).attempts =
      (takeThrough (fullSuccessB hL sL) (selectFormats fs)).filter (precheckPass hL sL) ∧
    resOk (_download_with_ytdlp hL sL title fs).result =
      ((selectFormats fs).find? (fullSuccessB hL sL)).map (fun f => (okPath f, title)) :=
  ⟨fun _ hf => selectFormats_vcodec hf,
   selectFormats_perm fs,
   sortDesc_pairwise _,
   fun k => sortDesc_filter_key _ k,
   selectLoop_attempts hL sL title _ none,
   selectLoop_result hL sL title _ none⟩

/-- C2: with a positive size limit, a rendition whose size estimate
(approximate-size field first, exact-size fallback) exceeds the limit is
never attempted; a reached rendition passing the height check with no
estimate at all is attempted; an actually-oversized materialized file is
never accepted and does not remain on disk (only the accepted candidate
file, if any, remains); and a failed candidate does not terminate the
selection — the outcome equals that of the remaining candidate list. -/
theorem c2_size_limit (hL sL : Nat) (title : String) (fs : List Fmt) (hS : sL ≠ 0) :
    C2SizeProp hL sL title fs := by
  refine ⟨?_, ?_, ?_, ?_, ?_, ?_⟩
  · intro f hf e he
    unfold _download_with_ytdlp at hf
    rw [selectLoop_attempts] at hf
    have hpc := (List.mem_filter.1 hf).2
    have hss : sizeSkip sL f = false := by
      simp only [precheckPass, Bool.and_eq_true, Bool.not_eq_true'] at hpc
      exact hpc.2
    simp only [sizeSkip, he, hS, ne_eq, not_false_iff, decide_eq_false_iff_not,
      Bool.and_eq_false_iff, decide_eq_true_eq, not_lt] at hss
    rcases hss with hss | hss
    · exact absurd trivial hss
    · exact hss
  · intro f hf hest hH
    unfold _download_with_ytdlp
    rw [selectLoop_attempts]
    refine List.mem_filter.2 ⟨hf, ?_⟩
    simp [precheckPass, hH, sizeSkip, hest]
  · intro f p n ho hn
    simp [fullSuccessB, ho, hS, hn]
  · intro hnone
    unfold _download_with_ytdlp
    rw [selectLoop_files]
    simp [hnone]
  · intro g hg
    unfold _download_with_ytdlp
    rw [selectLoop_files]
    simp [hg]
  · intro cs1 f cs2 hdec hFS
    unfold _download_with_ytdlp
    rw [selectLoop_result, hdec]
    rcases hc : cs1.find? (fullSuccessB hL sL) with _ | x
    · rw [find?_append_none _ _ hc, find?_append_none _ _ hc, List.find?_cons]
      simp only [hFS]
    · rw [find?_append_some _ _ hc, find?_append_some _ _ hc]

/-- C3: with a positive height limit, a rendition whose declared height
exceeds the limit is never attempted; the witness runs limit 720 against
declared heights 360, 720 and 1080 and the 1080 rendition is not
attempted. -/
theorem c3_height_never_attempted (hL sL : Nat) (title : String) (fs : List Fmt)
    (f : Fmt) (h : Nat) (hH : hL ≠ 0) (hf : f.height = some h) (hgt : h > hL) :
    f ∉ (_download_with_ytdlp hL sL title fs).attempts := by
  intro hmem
  unfold _download_with_ytdlp at hmem
  rw [selectLoop_attempts] at hmem
  have hpc := (List.mem_filter.1 hmem).2
  have hhs : heightSkip hL f = true := by
    have hne : h ≠ 0 := by omega
    simp [heightSkip, hf, hH, hgt, hne]
  simp [precheckPass, hhs] at hpc

/-- C4: when no candidate fully succeeds, the selector fails carrying the
last recorded per-candidate failure detail — or the generic no-candidate
message when no failure was recorded — and leaves no downloaded file on
disk. -/
theorem c4_exhaustion_no_file (hL sL : Nat) (title : String) (fs : List Fmt)
    (hnone : (selectFormats fs).find? (fullSuccessB hL sL) = none) :
    (_download_with_ytdlp hL sL title fs).result =
      .error ((((selectFormats fs).filterMap (attemptFailMsg hL sL)).getLast?).getD
        genericFailMsg) ∧
    (_download_with_ytdlp hL sL title fs).files = [] := by
  constructor
  · have h := selectLoop_error hL sL title (selectFormats fs) none hnone
    simpa using h
  · unfold _download_with_ytdlp
    rw [selectLoop_files]
    simp [hnone]

theorem c2_witness :
    (1 : Nat) ≠ 0 ∧
    C2SizeProp 0 1 "t"
      [⟨"big", some "avc", some 720, some 100, some 3145728, none, .ok "/d/big" none⟩,
       ⟨"noest", some "avc", some 480, some 50, none, none, .ok "/d/noest" (some 2097153)⟩,
       ⟨"small", some "avc", some 360, some 40, none, none, .ok "/d/small" (some 1000)⟩] :=
  ⟨by decide,
   c2_size_limit 0 1 "t"
     [⟨"big", some "avc", some 720, some 100, some 3145728, none, .ok "/d/big" none⟩,
      ⟨"noest", some "avc", some 480, some 50, none, none, .ok "/d/noest" (some 2097153)⟩,
      ⟨"small", some "avc", some 360, some 40, none, none, .ok "/d/small" (some 1000)⟩]
     (by decide)⟩

theorem c3_witness :
    (720 : Nat) ≠ 0 ∧
    (Fmt.height ⟨"f1080", some "avc", some 1080, some 300, none, none, .ok "/d/f1080" none⟩ =
      some 1080) ∧
    1080 > 720 ∧
    (⟨"f1080", some "avc", some 1080, some 300, none, none, .ok "/d/f1080" none⟩ : Fmt) ∉
      (_download_with_ytdlp 720 0 "t"
        [⟨"f360", some "avc", some 360, some 100, none, none, .ok "/d/f360" none⟩,
         ⟨"f1080", some "avc", some 1080, some 300, none, none, .ok "/d/f1080" none⟩,
         ⟨"f720", some "avc", some 720, some 200, none, none, .ok "/d/f720" none⟩]).attempts :=
  ⟨by decide, rfl, by decide,
   c3_height_never_attempted 720 0 "t"
     [⟨"f360", some "avc", some 360, some 100, none, none, .ok "/d/f360" none⟩,
      ⟨"f1080", some "avc", some 1080, some 300, none, none, .ok "/d/f1080" none⟩,
      ⟨"f720", some "avc", some 720, some 200, none, none, .ok "/d/f720" none⟩]
     ⟨"f1080", some "avc", some 1080, some 300, none, none, .ok "/d/f1080" none⟩
     1080 (by decide) rfl (by decide)⟩

theorem c4_witness :
    ((selectFormats
        [⟨"e1", some "avc", some 720, some 100, none, none, .err "网络错误"⟩,
         ⟨"e2", some "avc", some 360, some 50, none, none, .noFile⟩]).find?
      (fullSuccessB 0 0) = none) ∧
    ((_download_with_ytdlp 0 0 "t"
        [⟨"e1", some "avc", some 720, some 100, none, none, .err "网络错误"⟩,
         ⟨"e2", some "avc", some 360, some 50, none, none, .noFile⟩]).result =
      .error ((((selectFormats
          [⟨"e1", some "avc", some 720, some 100, none, none, .err "网络错误"⟩,
           ⟨"e2", some "avc", some 360, some 50, none, none, .noFile⟩]).filterMap
        (attemptFailMsg 0 0)).getLast?).getD genericFailMsg) ∧
      (_download_with_ytdlp 0 0 "t"
        [⟨"e1", some "avc", some 720, some 100, none, none, .err "网络错误"⟩,
         ⟨"e2", some "avc", some 360, some 50, none, none, .noFile⟩]).files = []) :=
  ⟨by decide,
   c4_exhaustion_no_file 0 0 "t"
     [⟨"e1", some "avc", some 720, some 100, none, none, .err "网络错误"⟩,
      ⟨"e2", some "avc", some 360, some 50, none, none, .noFile⟩]
     (by decide)⟩
